import Mathlib

/-!
Verification of the Word-to-Markdown conversion pipeline
(`src/word/converter.ts`: table classification, complex-table isolation,
simple-table rendering, cell escaping, image-sink callback, Markdown
post-processing, and file-name sanitization).

HTML documents are embedded as a tree of element/text nodes; the DOM
queries used by the code (`querySelectorAll` over a subtree, attribute
lookup) become list operations over the preorder list of descendants.
JavaScript string/regex operations are embedded as `List Char`
transformations with the same semantics.
-/

namespace WordConv

/-- An HTML node: an element with a tag name, an attribute list and ordered
children, or a text node.  This is the tree shape the converter's jsdom
documents have. -/
inductive Node where
  | text (s : String)
  | elem (tag : String) (attrs : List (String × String)) (children : List Node)

mutual

/-- All proper descendants of a node in document (preorder) order.
`n.querySelectorAll(sel)` in the source is `(descendants n).filter (matches sel)`. -/
def descendants : Node → List Node
  | .text _ => []
  | .elem _ _ cs => descendantsList cs

/-- Preorder listing of a forest: each root followed by its descendants. -/
def descendantsList : List Node → List Node
  | [] => []
  | c :: cs => c :: descendants c ++ descendantsList cs

end

/-- Does the node match a tag-name selector? (`td`, `img`, ...). -/
def isTag (t : String) (n : Node) : Bool :=
  match n with
  | .elem tag _ _ => tag = t
  | .text _ => false

/-- `element.getAttribute(name)`: first attribute with the given name. -/
def getAttribute (n : Node) (name : String) : Option String :=
  match n with
  | .elem _ attrs _ => (attrs.find? (fun p => p.1 = name)).map (fun p => p.2)
  | .text _ => none

/-- JavaScript whitespace (the ASCII part of `\s`, which is what the
converter's inputs can contain). -/
def isJsWS (c : Char) : Bool :=
  c = ' ' || c = '\t' || c = '\n' || c = '\r' || c = '\x0b' || c = '\x0c'

/-- Value of a digit run, most significant first. -/
def digitsVal (ds : List Char) : Nat :=
  ds.foldl (fun a c => a * 10 + (c.toNat - '0'.toNat)) 0

/-- JavaScript `parseInt(s, 10)`: skip leading whitespace, optional sign,
read the leading run of decimal digits; `none` models `NaN` (no digits). -/
def jsParseInt (s : String) : Option Int :=
  let l := s.data.dropWhile isJsWS
  let signed : Int × List Char :=
    match l with
    | '-' :: r => (-1, r)
    | '+' :: r => (1, r)
    | _ => (1, l)
  let ds := signed.2.takeWhile Char.isDigit
  if ds.isEmpty then none
  else some (signed.1 * (digitsVal ds : Int))

/-- The span test of `isComplexTable`:
`attr && parseInt(attr, 10) > 1` for a `colspan`/`rowspan` attribute value. -/
def spanTriggers (v : Option String) : Bool :=
  match v with
  | none => false
  | some s =>
    s ≠ "" && (match jsParseInt s with
               | some n => decide (1 < n)
               | none => false)

/-- `isComplexTable(table)` from the source: a table is COMPLEX when its
subtree contains an `img`, a `ul`/`ol`, a nested `table`, or a `td`/`th`
whose `colspan` or `rowspan` parses to an integer greater than 1. -/
def isComplexTable (table : Node) : Bool :=
  let ds := descendants table
  if (ds.filter (isTag "img")).length > 0 then true
  else if (ds.filter (fun n => isTag "ul" n || isTag "ol" n)).length > 0 then true
  else if (ds.filter (isTag "table")).length > 0 then true
  else
    (ds.filter (fun n => isTag "td" n || isTag "th" n)).any
      (fun cell => spanTriggers (getAttribute cell "colspan") ||
                   spanTriggers (getAttribute cell "rowspan"))

/-- The spec's classification condition, stated independently of the code's
filter/loop structure: some descendant is an image, a list, a nested table,
or a cell carrying a span attribute whose parsed value exceeds 1. -/
def SpecComplex (t : Node) : Prop :=
  (∃ n ∈ descendants t, isTag "img" n = true) ∨
  (∃ n ∈ descendants t, isTag "ul" n = true ∨ isTag "ol" n = true) ∨
  (∃ n ∈ descendants t, isTag "table" n = true) ∨
  (∃ n ∈ descendants t, (isTag "td" n = true ∨ isTag "th" n = true) ∧
    ((∃ s, getAttribute n "colspan" = some s ∧ ∃ k, jsParseInt s = some k ∧ 1 < k) ∨
     (∃ s, getAttribute n "rowspan" = some s ∧ ∃ k, jsParseInt s = some k ∧ 1 < k)))

/-- A table whose only span attribute is the non-numeric `colspan="abc"`. -/
def tableNonNumeric : Node :=
  .elem "table" [] [.elem "tr" [] [.elem "td" [("colspan", "abc")] [.text "x"]]]

/-! ## Cell content (`getCellContent`) -/

/-- `markdown.replace(/\|/g, '\\|')`: escape every literal pipe. -/
def escapePipes (l : List Char) : List Char :=
  l.flatMap (fun c => if c = '|' then ['\\', '|'] else [c])

/-- `markdown.replace(/\n/g, ' ')`: turn every newline into one space. -/
def newlineToSpace (l : List Char) : List Char :=
  l.map (fun c => if c = '\n' then ' ' else c)

/-- JavaScript `String.trim()`: drop whitespace from both ends. -/
def jsTrimList (l : List Char) : List Char :=
  ((l.dropWhile isJsWS).reverse.dropWhile isJsWS).reverse

/-- `getCellContent` from the source, applied to the Markdown text that the
external HTML-to-Markdown engine produced for the cell's inner HTML:
escape pipes, replace newlines by spaces, trim. -/
def getCellContent (md : String) : String :=
  String.mk (jsTrimList (newlineToSpace (escapePipes md.data)))

/-- The spec's single-pass description of cell escaping: every literal `|`
becomes `\|`, every newline becomes one space, all other characters are
kept; the result is then trimmed. -/
def specCellEscape (l : List Char) : List Char :=
  l.flatMap (fun c => if c = '|' then ['\\', '|'] else if c = '\n' then [' '] else [c])

/-! ## Simple table rendering (`convertSimpleTableToMarkdown`) -/

mutual

/-- `node.textContent`: concatenated text of the subtree.  Used to model the
external engine's conversion of a cell's inner HTML. -/
def textContent : Node → String
  | .text s => s
  | .elem _ _ cs => textContentList cs

def textContentList : List Node → String
  | [] => ""
  | c :: cs => textContent c ++ textContentList cs

end

/-- `tr.querySelectorAll('td, th')` for one row. -/
def cellNodes (tr : Node) : List Node :=
  (descendants tr).filter (fun n => isTag "td" n || isTag "th" n)

/-- The `rows` array built by `convertSimpleTableToMarkdown`: one list of
rendered cell strings per `tr`, rows with no cells dropped.  The external
engine's per-cell conversion is modelled as the cell's text content. -/
def rowsOfTable (t : Node) : List (List String) :=
  (((descendants t).filter (isTag "tr")).map
      (fun tr => (cellNodes tr).map (fun c => getCellContent (textContent c)))).filter
    (fun cs => decide (cs.length > 0))

/-- `Math.max(...)` over a list of naturals (all values are lengths, so the
`-Infinity` empty case is collapsed to 0). -/
def jsMax (l : List Nat) : Nat := l.foldl max 0

/-- `const colCount = Math.max(...rows.map(r => r.length))`. -/
def colCount (rows : List (List String)) : Nat := jsMax (rows.map List.length)

/-- One pass of the width loop: `colWidths[i] = max(colWidths[i], row[i].length)`
for every `i < row.length`. -/
def updateWidths (ws : List Nat) (row : List String) : List Nat :=
  ws.enum.map (fun p =>
    match row[p.1]? with
    | some c => max p.2 c.length
    | none => p.2)

/-- `const colWidths = Array(colCount).fill(3)` then the nested width loop. -/
def colWidths (rows : List (List String)) : List Nat :=
  rows.foldl updateWidths (List.replicate (colCount rows) 3)

/-- JavaScript `String.padEnd(w)` (with spaces). -/
def padEnd (s : String) (w : Nat) : String :=
  s ++ String.mk (List.replicate (w - s.length) ' ')

/-- One rendered table line: `'| ' + cells.join(' | ') + ' |'` where cell `i`
is `(row[i] || '').padEnd(colWidths[i])`. -/
def rowLine (ws : List Nat) (row : List String) : String :=
  "| " ++ String.intercalate " | " (ws.enum.map (fun p => padEnd (row.getD p.1 "") p.2)) ++ " |"

/-- The separator line: one run of `-` of each column's width. -/
def sepLine (ws : List Nat) : String :=
  "| " ++ String.intercalate " | " (ws.map (fun w => String.mk (List.replicate w '-'))) ++ " |"

/-- `convertSimpleTableToMarkdown`, from the collected `rows` on: empty input
gives `''`; otherwise header line, separator line, data lines, wrapped in
newlines. -/
def renderTable (rows : List (List String)) : String :=
  if rows.isEmpty then ""
  else
    let ws := colWidths rows
    let lines := rowLine ws (rows.headD []) :: sepLine ws :: (rows.drop 1).map (rowLine ws)
    "\n" ++ String.intercalate "\n" lines ++ "\n"

/-- `convertSimpleTableToMarkdown` on a table node. -/
def convertSimpleTableToMarkdown (t : Node) : String :=
  renderTable (rowsOfTable t)

/-- Per-column step of the width loop. -/
def widthStep (i : Nat) (w : Nat) (row : List String) : Nat :=
  match row[i]? with
  | some c => max w c.length
  | none => w

/-- Lengths of the cells actually present in column `i`. -/
def colCells (rows : List (List String)) (i : Nat) : List Nat :=
  (rows.filterMap (fun r => r[i]?)).map String.length

/-! ## File name sanitization (`sanitizeFileName`) -/

/-- The character class `[<>:"/\\|?*]`. -/
def isDangerChar (c : Char) : Bool :=
  c = '<' || c = '>' || c = ':' || c = '"' || c = '/' || c = '\\' ||
  c = '|' || c = '?' || c = '*'

/-- `code <= 0x1f || code === 0x7f`: control characters and DEL. -/
def isControlChar (c : Char) : Bool :=
  c.toNat ≤ 0x1f || c.toNat = 0x7f

/-- `.replace(/[<>:"/\\|?*]/g, '_')`. -/
def replaceDanger (l : List Char) : List Char :=
  l.map (fun c => if isDangerChar c then '_' else c)

/-- The `split('').map(...).join('')` pass replacing control characters and
DEL by `_`. -/
def replaceControl (l : List Char) : List Char :=
  l.map (fun c => if isControlChar c then '_' else c)

/-- `.replace(/\.{2,}/g, '_')`: every maximal run of two or more dots
collapses to a single `_`. -/
def collapseDotRuns : List Char → List Char
  | '.' :: '.' :: rest => '_' :: collapseDotRuns (rest.dropWhile (fun c => c = '.'))
  | c :: rest => c :: collapseDotRuns rest
  | [] => []
termination_by l => l.length
decreasing_by
  · have := ((List.dropWhile_suffix (l := rest) (fun c : Char => c = '.')).sublist).length_le
    simp only [List.length_cons]
    omega
  · simp only [List.length_cons]
    omega

/-- `.replace(/^\.+/, '_')`: a leading run of dots becomes one `_`. -/
def replaceLeadingDots (l : List Char) : List Char :=
  if l.head? = some '.' then '_' :: l.dropWhile (fun c => c = '.') else l

/-- The character class `[\s.]` (ASCII whitespace or dot). -/
def isWSorDot (c : Char) : Bool := isJsWS c || c = '.'

/-- Does the list start with a whitespace-or-dot character? -/
def headIsWSorDot : List Char → Bool
  | [] => false
  | c :: _ => isWSorDot c

/-- `.replace(/[\s.]+$/, '_')`: a trailing run of whitespace/dots becomes
one `_`. -/
def replaceTrailing (l : List Char) : List Char :=
  if headIsWSorDot l.reverse then ('_' :: l.reverse.dropWhile isWSorDot).reverse else l

/-- The names matched by `/^(con|prn|aux|nul|com[1-9]|lpt[1-9])$/i`. -/
def reservedNames : List String :=
  ["con", "prn", "aux", "nul",
   "com1", "com2", "com3", "com4", "com5", "com6", "com7", "com8", "com9",
   "lpt1", "lpt2", "lpt3", "lpt4", "lpt5", "lpt6", "lpt7", "lpt8", "lpt9"]

def toLowerStr (s : String) : String := String.mk (s.data.map Char.toLower)

def isWindowsReserved (s : String) : Bool := reservedNames.contains (toLowerStr s)

/-- The replace chain of `sanitizeFileName` before `.slice(0, 200)`. -/
def sanitizedCore (name : String) : List Char :=
  replaceTrailing (replaceLeadingDots (collapseDotRuns
    (replaceControl (replaceDanger name.data))))

/-- `.slice(0, 200)` applied to the replace chain's result. -/
def slicedName (name : String) : String := String.mk ((sanitizedCore name).take 200)

/-- The `WINDOWS_RESERVED` guard: prefix `_` when the sliced name is a
reserved device name. -/
def reservedGuarded (name : String) : String :=
  if isWindowsReserved (slicedName name) then "_" ++ slicedName name else slicedName name

/-- `sanitizeFileName` from the source: `result || '_'` on top of the
replace chain, slice and reserved-name guard. -/
def sanitizeFileName (name : String) : String :=
  if reservedGuarded name = "" then "_" else reservedGuarded name

/-- Characters allowed in a sanitized file name: none of `<>:"/\|?*` and no
control character or DEL. -/
def okChar (c : Char) : Bool := !isDangerChar c && !isControlChar c

/-! ## Image sink (`convertImage` callback of `convertDocxWithImages`) -/

/-- The `extMap` lookup with its `|| '.png'` default. -/
def extOf (contentType : String) : String :=
  if contentType = "image/png" then ".png"
  else if contentType = "image/jpeg" then ".jpg"
  else if contentType = "image/gif" then ".gif"
  else if contentType = "image/bmp" then ".bmp"
  else if contentType = "image/webp" then ".webp"
  else ".png"

/-- `String(n).padStart(3, '0')`. -/
def padStart3 (n : Nat) : String :=
  String.mk (List.replicate (3 - (toString n).length) '0') ++ toString n

/-- One image event as the `convertImage` callback experiences it:
`image.read()` rejects, the read succeeds but `fs.writeFileSync` throws, or
both succeed.  `contentType` is `image.contentType` (`""` models absent). -/
inductive ImgEvent where
  | readFail (msg : String)
  | writeFail (contentType : String) (msg : String)
  | ok (contentType : String)

/-- Per-image record: the value `imageIndex` was incremented to while
handling this event (`none` when the handler never reached `imageIndex++`),
and the `src` returned to the HTML producer. -/
structure ImgOutcome where
  ordinal : Option Nat
  src : String
deriving DecidableEq

/-- The `convertImage` callback run over the document's image events in
order, starting from counter value `idx`: returns the final `imageIndex`,
the warnings pushed (in order), and each event's outcome (in order).
Mirrors the source: the counter is incremented only after a successful
`image.read()`; the catch block pushes
`Failed to extract image ${imageIndex}: ${err.message}` and returns
`{ src: '' }`. -/
def runImages (baseName : String) (idx : Nat) : List ImgEvent → Nat × List String × List ImgOutcome
  | [] => (idx, [], [])
  | .readFail msg :: rest =>
    let r := runImages baseName idx rest
    (r.1, ("Failed to extract image " ++ toString idx ++ ": " ++ msg) :: r.2.1,
      ⟨none, ""⟩ :: r.2.2)
  | .writeFail _ msg :: rest =>
    let r := runImages baseName (idx + 1) rest
    (r.1, ("Failed to extract image " ++ toString (idx + 1) ++ ": " ++ msg) :: r.2.1,
      ⟨some (idx + 1), ""⟩ :: r.2.2)
  | .ok contentType :: rest =>
    let ct := if contentType = "" then "image/png" else contentType
    let newName := sanitizeFileName baseName ++ "-image-" ++ padStart3 (idx + 1) ++ extOf ct
    let r := runImages baseName (idx + 1) rest
    (r.1, r.2.1, ⟨some (idx + 1), "images/" ++ newName⟩ :: r.2.2)

/-- Number of events whose `image.read()` succeeded — exactly the events
that increment `imageIndex`. -/
def readOkCount : List ImgEvent → Nat
  | [] => 0
  | .readFail _ :: rest => readOkCount rest
  | .writeFail _ _ :: rest => readOkCount rest + 1
  | .ok _ :: rest => readOkCount rest + 1

/-! ## Markdown post-processing (`cleanupMarkdown`) -/

/-- Match the regex `!\[[^\]]*\]\(\s*\)` at the head of the list; on
success return the remainder after the match. -/
def matchEmptyImage : List Char → Option (List Char)
  | '!' :: '[' :: rest =>
    match rest.dropWhile (fun c => c ≠ ']') with
    | ']' :: '(' :: rest3 =>
      match rest3.dropWhile isJsWS with
      | ')' :: rest5 => some rest5
      | _ => none
    | _ => none
  | _ => none

lemma matchEmptyImage_length {l rest : List Char} (h : matchEmptyImage l = some rest) :
    rest.length < l.length := by
  rw [matchEmptyImage.eq_def] at h
  split at h
  · rename_i r
    split at h
    · rename_i rest3 heq1
      split at h
      · rename_i rest5 heq2
        injection h with h
        subst h
        have h1 := ((List.dropWhile_suffix (l := r) (fun c : Char => c ≠ ']')).sublist).length_le
        have h2 := ((List.dropWhile_suffix (l := rest3) isJsWS).sublist).length_le
        rw [heq1] at h1
        rw [heq2] at h2
        simp only [List.length_cons] at h1 h2 ⊢
        omega
      · cases h
    · cases h
  · cases h

/-- `.replace(/!\[[^\]]*\]\(\s*\)/g, '')`: remove every empty image
reference. -/
def removeEmptyImages : List Char → List Char
  | [] => []
  | c :: rest =>
    match h : matchEmptyImage (c :: rest) with
    | some rest' => removeEmptyImages rest'
    | none => c :: removeEmptyImages rest
termination_by l => l.length
decreasing_by
  · exact matchEmptyImage_length h
  · simp only [List.length_cons]
    omega

/-- `.replace(/(\d+)\\\./g, '$1.')`: drop the backslash between a digit and
a following dot. -/
def fixEscapedDots : List Char → List Char
  | d :: '\\' :: '.' :: rest =>
    if d.isDigit then d :: '.' :: fixEscapedDots rest
    else d :: fixEscapedDots ('\\' :: '.' :: rest)
  | c :: rest => c :: fixEscapedDots rest
  | [] => []
termination_by l => l.length
decreasing_by
  · simp only [List.length_cons]
    omega
  · simp only [List.length_cons]
    omega
  · simp only [List.length_cons]
    omega

/-- `.replace(/\n{3,}/g, '\n\n')`: collapse runs of three or more newlines
to exactly two. -/
def collapseNewlines : List Char → List Char
  | '\n' :: '\n' :: '\n' :: rest => collapseNewlines ('\n' :: '\n' :: rest)
  | c :: rest => c :: collapseNewlines rest
  | [] => []
termination_by l => l.length
decreasing_by
  · simp only [List.length_cons]
    omega
  · simp only [List.length_cons]
    omega

/-- JavaScript `String.trimEnd()`. -/
def jsTrimEnd (l : List Char) : List Char := (l.reverse.dropWhile isJsWS).reverse

/-- JavaScript `split('\n')`. -/
def splitOnNewline : List Char → List (List Char)
  | [] => [[]]
  | '\n' :: rest => [] :: splitOnNewline rest
  | c :: rest =>
    match splitOnNewline rest with
    | line :: lines => (c :: line) :: lines
    | [] => [[c]]

/-- JavaScript `join('\n')`. -/
def joinNewline : List (List Char) → List Char
  | [] => []
  | [line] => line
  | line :: lines => line ++ '\n' :: joinNewline lines

/-- `.split('\n').map(line => line.trimEnd()).join('\n')`. -/
def trimLineEnds (l : List Char) : List Char :=
  joinNewline ((splitOnNewline l).map jsTrimEnd)

/-- `result.endsWith('\n')`. -/
def endsWithNewline (l : List Char) : Bool := l.getLast? = some '\n'

/-- `cleanupMarkdown` before the final trailing-newline guard: title
heading prepended, empty image links removed, digit escapes fixed, blank
runs collapsed, line ends trimmed. -/
def preFinal (markdown title : String) : List Char :=
  trimLineEnds (collapseNewlines (fixEscapedDots (removeEmptyImages
    ("# " ++ title ++ "\n\n" ++ markdown).data)))

/-- `cleanupMarkdown` from the source. -/
def cleanupMarkdown (markdown title : String) : String :=
  if endsWithNewline (preFinal markdown title) then String.mk (preFinal markdown title)
  else String.mk (preFinal markdown title) ++ "\n"

/-- Is a run of three consecutive newlines present? -/
def hasTripleNewline : List Char → Bool
  | '\n' :: '\n' :: '\n' :: _ => true
  | _ :: rest => hasTripleNewline rest
  | [] => false

/-- Ends with exactly one trailing newline: the last character is a newline
and the one before it (if any) is not. -/
def endsWithExactlyOneNewline (s : String) : Prop :=
  s.data.getLast? = some '\n' ∧ ¬ s.data.dropLast.getLast? = some '\n'

/-! ## Complex-table isolation (`preprocessComplexTables`) and the custom
emission rules -/

/-- One serialized attribute: ` name="value"`. -/
def attrText (p : String × String) : String := " " ++ p.1 ++ "=\"" ++ p.2 ++ "\""

mutual

/-- `outerHTML`: serialization of a node's markup. -/
def serialize : Node → String
  | .text s => s
  | .elem tag attrs children =>
    "<" ++ tag ++ String.join (attrs.map attrText) ++ ">" ++ serializeList children ++
      "</" ++ tag ++ ">"

def serializeList : List Node → String
  | [] => ""
  | c :: cs => serialize c ++ serializeList cs

end

/-- The `complex-table` wrapper `preprocessComplexTables` builds: the
original markup is stored in `data-html`, the visible content is the
placeholder text. -/
def wrapperFor (t : Node) : Node :=
  .elem "complex-table" [("data-html", serialize t)] [.text "COMPLEX_TABLE_PLACEHOLDER"]

mutual

/-- `preprocessComplexTables`: every table whose ancestor chain holds no
table (the `table.parentElement?.closest('table')` skip) is classified;
complex ones are replaced by their wrapper, everything else is kept with
its children processed.  `insideTable` records whether an ancestor is a
table. -/
def preprocessNode (insideTable : Bool) : Node → Node
  | .text s => .text s
  | .elem tag attrs children =>
    if tag = "table" && !insideTable && isComplexTable (.elem tag attrs children) then
      wrapperFor (.elem tag attrs children)
    else
      .elem tag attrs (preprocessList (insideTable || tag = "table") children)

def preprocessList (insideTable : Bool) : List Node → List Node
  | [] => []
  | c :: cs => preprocessNode insideTable c :: preprocessList insideTable cs

end

def preprocessComplexTables (doc : Node) : Node := preprocessNode false doc

mutual

/-- The Markdown emission pipeline as configured in
`convertDocxWithImages`: the `complexTable` rule re-emits the stored
`data-html` markup between blank lines, the `simpleTable` rule renders a
pipe table, and every other construct is emitted by the external generic
engine — modelled as text passing through and element emissions
concatenating in document order. -/
def emit : Node → String
  | .text s => s
  | .elem tag attrs children =>
    if tag = "complex-table" then
      "\n\n" ++ (((attrs.find? (fun p => p.1 = "data-html")).map (fun p => p.2)).getD "") ++
        "\n\n"
    else if tag = "table" then
      convertSimpleTableToMarkdown (.elem tag attrs children)
    else emitList children

def emitList : List Node → String
  | [] => ""
  | c :: cs => emit c ++ emitList cs

end

/-- `SafePath t d`: `t` occurs in `d`'s subtree and no strict ancestor of
the occurrence (within `d`) is tagged `table` or `complex-table`.  A
top-level table in a document that does not use the reserved
`complex-table` tag — any mammoth-produced document — occurs this way. -/
inductive SafePath : Node → Node → Prop where
  | refl (t : Node) : SafePath t t
  | step {t c : Node} (tag : String) (attrs : List (String × String))
      (children : List Node) (htable : tag ≠ "table") (hwrap : tag ≠ "complex-table")
      (hc : c ∈ children) (hp : SafePath t c) :
      SafePath t (.elem tag attrs children)

/-- A table holding an image, inside a body element. -/
def imgTable : Node :=
  .elem "table" [] [.elem "tr" [] [.elem "td" [] [.elem "img" [("src", "x.png")] []]]]

def imgDoc : Node := .elem "body" [] [imgTable]

/-- A table whose nested table makes it COMPLEX; the pass leaves the inner
table alone and wraps only the container. -/
def nestedTableDoc : Node :=
  .elem "table" [] [.elem "tr" [] [.elem "td" [] [.elem "table" [] []]]]

lemma jsParseInt_empty : jsParseInt "" = none := by
  simp [jsParseInt]

lemma spanTriggers_iff (v : Option String) :
    spanTriggers v = true ↔
      ∃ s, v = some s ∧ ∃ k, jsParseInt s = some k ∧ 1 < k := by
  cases v with
  | none => simp [spanTriggers]
  | some s =>
    by_cases hs : s = ""
    · subst hs
      simp [spanTriggers, jsParseInt_empty]
    · cases hp : jsParseInt s with
      | none => simp [spanTriggers, hp, hs]
      | some n =>
        constructor
        · intro h
          refine ⟨s, rfl, n, hp, ?_⟩
          simp only [spanTriggers, hp, Bool.and_eq_true] at h
          exact of_decide_eq_true h.2
        · rintro ⟨s', hs', k, hk, hk1⟩
          cases hs'
          rw [hp] at hk
          cases hk
          simp only [spanTriggers, hp, Bool.and_eq_true]
          exact ⟨by simpa using hs, decide_eq_true hk1⟩

lemma filter_length_pos_iff {α : Type} (l : List α) (p : α → Bool) :
    ((l.filter p).length > 0) ↔ ∃ x ∈ l, p x = true := by
  induction l with
  | nil => simp
  | cons a l ih =>
    by_cases h : p a = true
    · simp only [List.filter_cons, h, if_true, List.length_cons, List.mem_cons]
      constructor
      · intro _
        exact ⟨a, Or.inl rfl, h⟩
      · intro _
        omega
    · simp only [List.filter_cons, if_neg h, List.mem_cons]
      rw [ih]
      constructor
      · rintro ⟨x, hx, hpx⟩
        exact ⟨x, Or.inr hx, hpx⟩
      · rintro ⟨x, hx | hx, hpx⟩
        · subst hx
          exact absurd hpx h
        · exact ⟨x, hx, hpx⟩

lemma isComplexTable_eq_true_iff (t : Node) :
    isComplexTable t = true ↔ SpecComplex t := by
  unfold isComplexTable SpecComplex
  by_cases h1 : ((descendants t).filter (isTag "img")).length > 0
  · simp only [h1, if_pos, if_true]
    rw [filter_length_pos_iff] at h1
    simp [h1]
  · rw [if_neg h1]
    rw [filter_length_pos_iff] at h1
    push_neg at h1
    by_cases h2 : ((descendants t).filter (fun n => isTag "ul" n || isTag "ol" n)).length > 0
    · simp only [h2, if_true]
      rw [filter_length_pos_iff] at h2
      obtain ⟨n, hn, hp⟩ := h2
      simp only [Bool.or_eq_true] at hp
      simp only [true_iff]
      exact Or.inr (Or.inl ⟨n, hn, hp⟩)
    · rw [if_neg h2]
      rw [filter_length_pos_iff] at h2
      push_neg at h2
      by_cases h3 : ((descendants t).filter (isTag "table")).length > 0
      · simp only [h3, if_true]
        rw [filter_length_pos_iff] at h3
        simp only [true_iff]
        exact Or.inr (Or.inr (Or.inl h3))
      · rw [if_neg h3]
        rw [filter_length_pos_iff] at h3
        push_neg at h3
        rw [List.any_eq_true]
        constructor
        · rintro ⟨cell, hcell, htrig⟩
          rw [List.mem_filter] at hcell
          obtain ⟨hmem, hcellTag⟩ := hcell
          simp only [Bool.or_eq_true] at hcellTag htrig
          refine Or.inr (Or.inr (Or.inr ⟨cell, hmem, hcellTag, ?_⟩))
          rcases htrig with h | h
          · exact Or.inl ((spanTriggers_iff _).mp h)
          · exact Or.inr ((spanTriggers_iff _).mp h)
        · intro hspec
          rcases hspec with ⟨n, hn, hp⟩ | ⟨n, hn, hp⟩ | ⟨n, hn, hp⟩ | ⟨n, hn, htag, hspan⟩
          · exact absurd hp (by simpa using h1 n hn)
          · rcases hp with hp | hp
            · exact absurd (by simp [hp] : (isTag "ul" n || isTag "ol" n) = true)
                (by simpa using h2 n hn)
            · exact absurd (by simp [hp] : (isTag "ul" n || isTag "ol" n) = true)
                (by simpa using h2 n hn)
          · exact absurd hp (by simpa using h3 n hn)
          · refine ⟨n, List.mem_filter.mpr ⟨hn, by simpa using htag⟩, ?_⟩
            rw [Bool.or_eq_true]
            rcases hspan with h | h
            · exact Or.inl ((spanTriggers_iff _).mpr h)
            · exact Or.inr ((spanTriggers_iff _).mpr h)

/-- C1: the classifier returns COMPLEX (true) if and only if the table's
subtree contains an image element, an ordered or unordered list element, a
nested table element, or a `td`/`th` cell with a `colspan` or `rowspan`
attribute whose parsed integer value exceeds 1; otherwise it returns
SIMPLE (false). -/
theorem classifier_complex_iff_spec (t : Node) :
    isComplexTable t = true ↔ SpecComplex t :=
  isComplexTable_eq_true_iff t

/-- C7: if a table has no image, list or nested-table descendants and every
`colspan`/`rowspan` attribute on its cells is absent or non-numeric
(`parseInt` yields NaN), then the span attributes do not trigger and the
table is classified SIMPLE. -/
theorem nonNumeric_spans_do_not_trigger (t : Node)
    (h1 : ∀ n ∈ descendants t,
      isTag "img" n = false ∧ isTag "ul" n = false ∧ isTag "ol" n = false ∧
      isTag "table" n = false)
    (h2 : ∀ n ∈ descendants t,
      (getAttribute n "colspan").all (fun s => (jsParseInt s).isNone) = true ∧
      (getAttribute n "rowspan").all (fun s => (jsParseInt s).isNone) = true) :
    isComplexTable t = false := by
  cases hc : isComplexTable t
  · rfl
  · exfalso
    have hspec := (isComplexTable_eq_true_iff t).mp hc
    rcases hspec with ⟨n, hn, hp⟩ | ⟨n, hn, hp | hp⟩ | ⟨n, hn, hp⟩ | ⟨n, hn, _, hspan⟩
    · rw [(h1 n hn).1] at hp
      cases hp
    · rw [(h1 n hn).2.1] at hp
      cases hp
    · rw [(h1 n hn).2.2.1] at hp
      cases hp
    · rw [(h1 n hn).2.2.2] at hp
      cases hp
    · rcases hspan with ⟨s, hs, k, hk, _⟩ | ⟨s, hs, k, hk, _⟩
      · have hall := (h2 n hn).1
        rw [hs] at hall
        simp only [Option.all_some] at hall
        rw [hk] at hall
        cases hall
      · have hall := (h2 n hn).2
        rw [hs] at hall
        simp only [Option.all_some] at hall
        rw [hk] at hall
        cases hall

/-- Concrete instance of `nonNumeric_spans_do_not_trigger`. -/
theorem nonNumeric_spans_witness :
    isComplexTable tableNonNumeric = false :=
  nonNumeric_spans_do_not_trigger tableNonNumeric (by decide) (by decide)

lemma newlineToSpace_escapePipes (l : List Char) :
    newlineToSpace (escapePipes l) = specCellEscape l := by
  induction l with
  | nil => rfl
  | cons c l ih =>
    simp only [escapePipes, newlineToSpace, specCellEscape, List.flatMap_cons,
      List.map_append] at *
    by_cases h1 : c = '|'
    · subst h1
      simp [ih]
    · by_cases h2 : c = '\n'
      · subst h2
        simp [ih]
      · simp [h1, h2, ih]

lemma head?_dropWhile_eq_some {α : Type} {p : α → Bool} {l : List α} {c : α}
    (h : (l.dropWhile p).head? = some c) : p c = false := by
  have hw := List.head?_dropWhile_not p l
  rw [h] at hw
  exact hw

lemma mem_jsTrimList {c : Char} {l : List Char} (h : c ∈ jsTrimList l) : c ∈ l := by
  rw [jsTrimList, List.mem_reverse] at h
  have h2 := (List.dropWhile_suffix isJsWS).subset h
  rw [List.mem_reverse] at h2
  exact (List.dropWhile_suffix isJsWS).subset h2

lemma newlineToSpace_no_newline (l : List Char) (c : Char) (hc : c ∈ newlineToSpace l) :
    c ≠ '\n' := by
  rw [newlineToSpace, List.mem_map] at hc
  obtain ⟨x, _, hx⟩ := hc
  subst hx
  by_cases h : x = '\n'
  · simp [h]
  · simp only [if_neg h]
    exact h

lemma jsTrimList_head? {l : List Char} {c : Char} (h : (jsTrimList l).head? = some c) :
    isJsWS c = false := by
  rw [jsTrimList, List.head?_reverse] at h
  have hne : (l.dropWhile isJsWS).reverse.dropWhile isJsWS ≠ [] := by
    intro hnil
    rw [hnil] at h
    cases h
  obtain ⟨t, ht⟩ := List.dropWhile_suffix (l := (l.dropWhile isJsWS).reverse) isJsWS
  have hlast : ((l.dropWhile isJsWS).reverse).getLast? = some c := by
    rw [← ht, List.getLast?_append_of_ne_nil _ hne, h]
  rw [List.getLast?_reverse] at hlast
  exact head?_dropWhile_eq_some hlast

lemma jsTrimList_getLast? {l : List Char} {c : Char} (h : (jsTrimList l).getLast? = some c) :
    isJsWS c = false := by
  rw [jsTrimList, List.getLast?_reverse] at h
  exact head?_dropWhile_eq_some h

/-- C5: the rendered cell text equals the spec's single-pass
escape-then-trim transform; it contains no literal newline; and it neither
starts nor ends with whitespace (leading/trailing whitespace trimmed). -/
theorem cellContent_escaped (md : String) :
    getCellContent md = String.mk (jsTrimList (specCellEscape md.data)) ∧
    ((getCellContent md).data.all (fun c => c != '\n')) = true ∧
    (∀ c, (getCellContent md).data.head? = some c → isJsWS c = false) ∧
    (∀ c, (getCellContent md).data.getLast? = some c → isJsWS c = false) := by
  refine ⟨?_, ?_, ?_, ?_⟩
  · rw [getCellContent, newlineToSpace_escapePipes]
  · rw [List.all_eq_true]
    intro c hc
    have hmem : c ∈ newlineToSpace (escapePipes md.data) :=
      mem_jsTrimList (by simpa [getCellContent] using hc)
    simpa using newlineToSpace_no_newline _ c hmem
  · intro c hc
    exact jsTrimList_head? (by simpa [getCellContent] using hc)
  · intro c hc
    exact jsTrimList_getLast? (by simpa [getCellContent] using hc)

/-- Concrete instance of `cellContent_escaped` at `"a|b\nc "`. -/
theorem cellContent_escaped_witness :
    getCellContent "a|b\nc " = String.mk (jsTrimList (specCellEscape ("a|b\nc ").data)) ∧
    isJsWS 'c' = false := by
  refine ⟨(cellContent_escaped "a|b\nc ").1, ?_⟩
  exact (cellContent_escaped "a|b\nc ").2.2.2 'c' (by decide)

/-! ### Width-computation lemmas -/

lemma le_foldl_max (l : List Nat) (acc : Nat) : acc ≤ l.foldl max acc := by
  induction l generalizing acc with
  | nil => exact le_refl acc
  | cons a l ih => exact le_trans (le_max_left acc a) (ih (max acc a))

lemma mem_le_foldl_max (l : List Nat) (acc : Nat) (x : Nat) (hx : x ∈ l) :
    x ≤ l.foldl max acc := by
  induction l generalizing acc with
  | nil => cases hx
  | cons a l ih =>
    rcases List.mem_cons.mp hx with rfl | hx'
    · exact le_trans (le_max_right acc x) (le_foldl_max l (max acc x))
    · exact ih (max acc a) hx'

lemma foldl_max_eq_acc_or_mem (l : List Nat) (acc : Nat) :
    l.foldl max acc = acc ∨ l.foldl max acc ∈ l := by
  induction l generalizing acc with
  | nil => exact Or.inl rfl
  | cons a l ih =>
    rcases ih (max acc a) with h | h
    · rcases max_choice acc a with hm | hm
      · exact Or.inl (by rw [List.foldl_cons, h, hm])
      · refine Or.inr ?_
        rw [List.foldl_cons, h, hm]
        exact List.mem_cons_self a l
    · exact Or.inr (List.mem_cons_of_mem a h)

lemma le_jsMax (l : List Nat) (x : Nat) (hx : x ∈ l) : x ≤ jsMax l :=
  mem_le_foldl_max l 0 x hx

lemma jsMax_mem (l : List Nat) (h : l ≠ []) : jsMax l ∈ l := by
  rcases foldl_max_eq_acc_or_mem l 0 with h0 | hmem
  · cases l with
    | nil => exact absurd rfl h
    | cons a l' =>
      have ha : a ≤ jsMax (a :: l') := le_jsMax _ a (List.mem_cons_self a l')
      have hz : jsMax (a :: l') = 0 := h0
      rw [hz] at ha
      rw [hz, Nat.le_zero.mp ha]
      exact List.mem_cons_self 0 l'
  · exact hmem

lemma foldl_max_swap (l : List Nat) (a b : Nat) :
    l.foldl max (max a b) = max a (l.foldl max b) := by
  induction l generalizing b with
  | nil => rfl
  | cons c l ih =>
    rw [List.foldl_cons, List.foldl_cons, max_assoc, ih]

lemma jsMax_cons (x : Nat) (l : List Nat) : jsMax (x :: l) = max x (jsMax l) := by
  show l.foldl max (max 0 x) = max x (l.foldl max 0)
  rw [max_comm 0 x, foldl_max_swap]

lemma length_updateWidths (ws : List Nat) (row : List String) :
    (updateWidths ws row).length = ws.length := by
  simp [updateWidths]

lemma getElem?_updateWidths (ws : List Nat) (row : List String) (i : Nat) :
    (updateWidths ws row)[i]? = ws[i]?.map (fun w => widthStep i w row) := by
  simp only [updateWidths, List.getElem?_map, List.getElem?_enum, Option.map_map]
  cases ws[i]? <;> simp [widthStep]

lemma getElem?_foldl_updateWidths (rows : List (List String)) (ws : List Nat) (i : Nat) :
    (rows.foldl updateWidths ws)[i]? = ws[i]?.map (fun w => rows.foldl (widthStep i) w) := by
  induction rows generalizing ws with
  | nil => cases h : ws[i]? <;> simp [h]
  | cons r rows ih =>
    rw [List.foldl_cons, ih, getElem?_updateWidths]
    cases h : ws[i]? <;> simp [h]

lemma foldl_widthStep_eq (i : Nat) (rows : List (List String)) (w0 : Nat) :
    rows.foldl (widthStep i) w0 = max w0 (jsMax (colCells rows i)) := by
  induction rows generalizing w0 with
  | nil => simp [colCells, jsMax]
  | cons r rows ih =>
    rw [List.foldl_cons]
    cases h : r[i]? with
    | none =>
      rw [show widthStep i w0 r = w0 from by simp [widthStep, h]]
      rw [ih]
      congr 1
      simp [colCells, List.filterMap_cons, h]
    | some c =>
      rw [show widthStep i w0 r = max w0 c.length from by simp [widthStep, h]]
      rw [ih]
      have hc : colCells (r :: rows) i = c.length :: colCells rows i := by
        simp [colCells, List.filterMap_cons, h]
      rw [hc, jsMax_cons, max_assoc]

lemma colWidths_getElem? (rows : List (List String)) (i : Nat) (hi : i < colCount rows) :
    (colWidths rows)[i]? = some (max 3 (jsMax (colCells rows i))) := by
  rw [colWidths, getElem?_foldl_updateWidths, List.getElem?_replicate_of_lt hi]
  simp [foldl_widthStep_eq]

lemma length_foldl_updateWidths (rows : List (List String)) (ws : List Nat) :
    (rows.foldl updateWidths ws).length = ws.length := by
  induction rows generalizing ws with
  | nil => rfl
  | cons r rows ih => rw [List.foldl_cons, ih, length_updateWidths]

lemma length_colWidths (rows : List (List String)) :
    (colWidths rows).length = colCount rows := by
  rw [colWidths, length_foldl_updateWidths, List.length_replicate]

lemma padEnd_length (s : String) (w : Nat) (h : s.length ≤ w) :
    (padEnd s w).length = w := by
  simp only [padEnd, String.length_append, String.length_mk, List.length_replicate]
  omega

/-- C3: for a nonempty row list, the rendered pipe table's column count is
the maximum cell count over all rows (an upper bound that is attained, not
just row 0's length); each column's width is `max 3 (widest cell in that
column)`; every rendered cell is padded exactly to its column's width; and
a cell absent from a shorter row is rendered as the empty string padded to
the column width (all spaces). -/
theorem simpleTable_geometry (rows : List (List String)) (hne : rows ≠ []) :
    (∀ r ∈ rows, r.length ≤ colCount rows) ∧
    (∃ r ∈ rows, r.length = colCount rows) ∧
    (colWidths rows).length = colCount rows ∧
    (∀ i, i < colCount rows →
      (colWidths rows)[i]? = some (max 3 (jsMax (colCells rows i)))) ∧
    (∀ r ∈ rows, ∀ i, i < colCount rows →
      (padEnd (r.getD i "") ((colWidths rows).getD i 0)).length = (colWidths rows).getD i 0 ∧
      (r.length ≤ i → padEnd (r.getD i "") ((colWidths rows).getD i 0) =
        String.mk (List.replicate ((colWidths rows).getD i 0) ' '))) := by
  refine ⟨?_, ?_, length_colWidths rows, ?_, ?_⟩
  · intro r hr
    exact le_jsMax _ _ (List.mem_map_of_mem List.length hr)
  · have hmem := jsMax_mem (rows.map List.length) (by simpa using hne)
    rw [List.mem_map] at hmem
    obtain ⟨r, hr, hlen⟩ := hmem
    exact ⟨r, hr, hlen⟩
  · intro i hi
    exact colWidths_getElem? rows i hi
  · intro r hr i hi
    have hw : (colWidths rows).getD i 0 = max 3 (jsMax (colCells rows i)) := by
      rw [List.getD_eq_getElem?_getD, colWidths_getElem? rows i hi]
      rfl
    have hcell : (r.getD i "").length ≤ (colWidths rows).getD i 0 := by
      rw [hw]
      by_cases hlen : i < r.length
      · have hg : r[i]? = some (r.getD i "") := by
          rw [List.getD_eq_getElem?_getD, List.getElem?_eq_getElem hlen]
          rfl
        have hmem : (r.getD i "").length ∈ colCells rows i := by
          rw [colCells]
          exact List.mem_map_of_mem _ (List.mem_filterMap.mpr ⟨r, hr, hg⟩)
        exact le_trans (le_jsMax _ _ hmem) (le_max_right 3 _)
      · have hd : r.getD i "" = "" := by
          rw [List.getD_eq_getElem?_getD, List.getElem?_eq_none (by omega)]
          rfl
        rw [hd]
        exact Nat.zero_le _
    refine ⟨padEnd_length _ _ hcell, ?_⟩
    intro hle
    have hd : r.getD i "" = "" := by
      rw [List.getD_eq_getElem?_getD, List.getElem?_eq_none hle]
      rfl
    rw [hd]
    apply String.ext
    simp [padEnd]

/-- Concrete instance of `simpleTable_geometry`: a second row longer than
the header still determines the column count. -/
theorem simpleTable_geometry_witness :
    (∀ r ∈ ([["a"], ["bb", "cc"]] : List (List String)),
      r.length ≤ colCount [["a"], ["bb", "cc"]]) ∧
    (∃ r ∈ ([["a"], ["bb", "cc"]] : List (List String)),
      r.length = colCount [["a"], ["bb", "cc"]]) := by
  exact ⟨(simpleTable_geometry [["a"], ["bb", "cc"]] (by decide)).1,
         (simpleTable_geometry [["a"], ["bb", "cc"]] (by decide)).2.1⟩

lemma okChar_underscore : okChar '_' = true := by decide

lemma mem_replaceControl_replaceDanger (l : List Char) (c : Char)
    (hc : c ∈ replaceControl (replaceDanger l)) : okChar c = true := by
  rw [replaceControl, List.mem_map] at hc
  obtain ⟨x, hx, hfx⟩ := hc
  subst hfx
  by_cases hco : isControlChar x = true
  · rw [if_pos hco]
    exact okChar_underscore
  · rw [if_neg hco]
    rw [replaceDanger, List.mem_map] at hx
    obtain ⟨y, _, hfy⟩ := hx
    by_cases hda : isDangerChar y = true
    · rw [if_pos hda] at hfy
      subst hfy
      exact okChar_underscore
    · rw [if_neg hda] at hfy
      subst hfy
      simp only [okChar, Bool.and_eq_true, Bool.not_eq_true']
      exact ⟨by simpa using hda, by simpa using hco⟩

lemma mem_collapseDotRuns (l : List Char) (c : Char) (hc : c ∈ collapseDotRuns l) :
    c = '_' ∨ c ∈ l := by
  induction l using collapseDotRuns.induct with
  | case1 rest ih =>
    rw [collapseDotRuns] at hc
    rcases List.mem_cons.mp hc with h | h
    · exact Or.inl h
    · rcases ih h with h' | h'
      · exact Or.inl h'
      · exact Or.inr (List.mem_cons_of_mem _ (List.mem_cons_of_mem _
          ((List.dropWhile_suffix _).subset h')))
  | case2 a rest hne ih =>
    rw [collapseDotRuns] at hc
    · rcases List.mem_cons.mp hc with h | h
      · subst h
        exact Or.inr (List.mem_cons_self c rest)
      · rcases ih h with h' | h'
        · exact Or.inl h'
        · exact Or.inr (List.mem_cons_of_mem _ h')
    · exact hne
  | case3 =>
    rw [collapseDotRuns] at hc
    cases hc

lemma mem_replaceLeadingDots (l : List Char) (c : Char)
    (hc : c ∈ replaceLeadingDots l) : c = '_' ∨ c ∈ l := by
  rw [replaceLeadingDots] at hc
  by_cases h : l.head? = some '.'
  · rw [if_pos h] at hc
    rcases List.mem_cons.mp hc with h' | h'
    · exact Or.inl h'
    · exact Or.inr ((List.dropWhile_suffix _).subset h')
  · rw [if_neg h] at hc
    exact Or.inr hc

lemma mem_replaceTrailing (l : List Char) (c : Char)
    (hc : c ∈ replaceTrailing l) : c = '_' ∨ c ∈ l := by
  rw [replaceTrailing] at hc
  by_cases hw : headIsWSorDot l.reverse = true
  · rw [if_pos hw, List.mem_reverse] at hc
    rcases List.mem_cons.mp hc with h | h
    · exact Or.inl h
    · refine Or.inr ?_
      rw [← List.mem_reverse]
      exact (List.dropWhile_suffix _).subset h
  · rw [if_neg hw] at hc
    exact Or.inr hc

lemma all_okChar_sanitizedCore (name : String) (c : Char)
    (hc : c ∈ sanitizedCore name) : okChar c = true := by
  rw [sanitizedCore] at hc
  rcases mem_replaceTrailing _ _ hc with h | h
  · rw [h]
    exact okChar_underscore
  rcases mem_replaceLeadingDots _ _ h with h' | h'
  · rw [h']
    exact okChar_underscore
  rcases mem_collapseDotRuns _ _ h' with h'' | h''
  · rw [h'']
    exact okChar_underscore
  exact mem_replaceControl_replaceDanger _ _ h''

/-- C10: for every input, `sanitizeFileName` returns a non-empty string
containing no `<>:"/\|?*` characters and no control characters (code at or
below 0x1f, or 0x7f), of length at most 201. -/
theorem sanitizeFileName_safe (s : String) :
    sanitizeFileName s ≠ "" ∧
    (sanitizeFileName s).data.all okChar = true ∧
    (sanitizeFileName s).length ≤ 201 := by
  rw [sanitizeFileName]
  by_cases hres : reservedGuarded s = ""
  · rw [if_pos hres]
    exact ⟨by decide, by decide, by decide⟩
  · rw [if_neg hres]
    refine ⟨hres, ?_, ?_⟩
    · rw [List.all_eq_true]
      intro c hcmem
      rw [reservedGuarded] at hcmem
      by_cases hrsv : isWindowsReserved (slicedName s) = true
      · rw [if_pos hrsv, String.data_append] at hcmem
        rcases List.mem_append.mp hcmem with h | h
        · rcases List.mem_singleton.mp h with rfl
          exact okChar_underscore
        · exact all_okChar_sanitizedCore s c (List.take_subset 200 _ h)
      · rw [if_neg hrsv] at hcmem
        exact all_okChar_sanitizedCore s c (List.take_subset 200 _ hcmem)
    · rw [reservedGuarded]
      have htake : (slicedName s).length ≤ 200 := by
        rw [slicedName, String.length_mk]
        exact List.length_take_le 200 _
      by_cases hrsv : isWindowsReserved (slicedName s) = true
      · rw [if_pos hrsv, String.length_append]
        have h1 : ("_" : String).length = 1 := rfl
        omega
      · rw [if_neg hrsv]
        omega

lemma runImages_spec (baseName : String) (events : List ImgEvent) : ∀ idx : Nat,
    ((runImages baseName idx events).2.2.map ImgOutcome.ordinal).filterMap id =
      List.range' (idx + 1) (readOkCount events) ∧
    (runImages baseName idx events).2.2.length = events.length ∧
    (runImages baseName idx events).1 = idx + readOkCount events := by
  induction events with
  | nil =>
    intro idx
    simp [runImages, readOkCount]
  | cons e rest ih =>
    intro idx
    cases e with
    | readFail msg =>
      obtain ⟨h1, h2, h3⟩ := ih idx
      refine ⟨?_, ?_, ?_⟩
      · simp only [runImages, List.map_cons, List.filterMap_cons, id, readOkCount]
        exact h1
      · simp only [runImages, List.length_cons, readOkCount]
        omega
      · simp only [runImages, readOkCount]
        exact h3
    | writeFail ct msg =>
      obtain ⟨h1, h2, h3⟩ := ih (idx + 1)
      refine ⟨?_, ?_, ?_⟩
      · simp only [runImages, List.map_cons, List.filterMap_cons, id, readOkCount]
        rw [List.range'_succ, h1]
      · simp only [runImages, List.length_cons, readOkCount]
        omega
      · simp only [runImages, readOkCount]
        omega
    | ok ct =>
      obtain ⟨h1, h2, h3⟩ := ih (idx + 1)
      refine ⟨?_, ?_, ?_⟩
      · simp only [runImages, List.map_cons, List.filterMap_cons, id, readOkCount]
        rw [List.range'_succ, h1]
      · simp only [runImages, List.length_cons, readOkCount]
        omega
      · simp only [runImages, readOkCount]
        omega

/-- C2 as amended: the ordinals assigned over a whole conversion are exactly
`1..K` in increasing order with no repeats or gaps, where `K` counts the
images whose read succeeded (write failures still consume an ordinal); every
event produces an outcome; and the reported `imageCount` equals `K`. -/
theorem ordinals_gapless_over_read_successes (baseName : String) (events : List ImgEvent) :
    ((runImages baseName 0 events).2.2.map ImgOutcome.ordinal).filterMap id =
      List.range' 1 (readOkCount events) ∧
    (runImages baseName 0 events).2.2.length = events.length ∧
    (runImages baseName 0 events).1 = readOkCount events := by
  have h := runImages_spec baseName events 0
  simpa using h

/-- C2 as stated fails on the code: with three images where the second
read fails, the assigned ordinals are `1, skip, 2` — the failed extraction
consumes no ordinal, so the ordinals are not `1..3`. -/
theorem ordinals_counterexample :
    ((runImages "doc" 0 [.ok "image/png", .readFail "boom", .ok "image/png"]).2.2.map
        ImgOutcome.ordinal) = [some 1, none, some 2] ∧
    ((runImages "doc" 0 [.ok "image/png", .readFail "boom", .ok "image/png"]).2.2.map
        ImgOutcome.ordinal).filterMap id ≠ [1, 2, 3] := by
  constructor
  · simp [runImages]
  · simp [runImages]

lemma runImages_writeFail_at (baseName ct msg : String) (post : List ImgEvent) :
    ∀ (pre : List ImgEvent) (idx : Nat),
    (runImages baseName idx (pre ++ .writeFail ct msg :: post)).2.2[pre.length]? =
      some ⟨some (idx + readOkCount pre + 1), ""⟩ ∧
    ("Failed to extract image " ++ toString (idx + readOkCount pre + 1) ++ ": " ++ msg) ∈
      (runImages baseName idx (pre ++ .writeFail ct msg :: post)).2.1 := by
  intro pre
  induction pre with
  | nil =>
    intro idx
    simp only [List.nil_append, runImages, readOkCount, Nat.add_zero, List.length_nil,
      List.getElem?_cons_zero]
    refine ⟨?_, List.mem_cons_self _ _⟩
    simp
  | cons e pre ih =>
    intro idx
    cases e with
    | readFail m =>
      obtain ⟨h1, h2⟩ := ih idx
      simp only [List.cons_append, runImages, readOkCount, List.length_cons,
        List.getElem?_cons_succ]
      exact ⟨h1, List.mem_cons_of_mem _ h2⟩
    | writeFail c m =>
      obtain ⟨h1, h2⟩ := ih (idx + 1)
      have harith : idx + 1 + readOkCount pre + 1 = idx + (readOkCount pre + 1) + 1 := by
        omega
      rw [harith] at h1 h2
      simp only [List.cons_append, runImages, readOkCount, List.length_cons,
        List.getElem?_cons_succ]
      exact ⟨h1, List.mem_cons_of_mem _ h2⟩
    | ok c =>
      obtain ⟨h1, h2⟩ := ih (idx + 1)
      have harith : idx + 1 + readOkCount pre + 1 = idx + (readOkCount pre + 1) + 1 := by
        omega
      rw [harith] at h1 h2
      simp only [List.cons_append, runImages, readOkCount, List.length_cons,
        List.getElem?_cons_succ]
      exact ⟨h1, h2⟩

/-- C8: when a single image's write fails, the conversion pushes a warning
naming that image's ordinal and the error message, returns an empty `src`
for exactly that slot, and still produces an outcome for every image event
(the failure aborts nothing). -/
theorem write_failure_recovers (baseName ct msg : String) (pre post : List ImgEvent) :
    (runImages baseName 0 (pre ++ .writeFail ct msg :: post)).2.2.length =
      (pre ++ .writeFail ct msg :: post).length ∧
    (runImages baseName 0 (pre ++ .writeFail ct msg :: post)).2.2[pre.length]? =
      some ⟨some (readOkCount pre + 1), ""⟩ ∧
    ("Failed to extract image " ++ toString (readOkCount pre + 1) ++ ": " ++ msg) ∈
      (runImages baseName 0 (pre ++ .writeFail ct msg :: post)).2.1 := by
  obtain ⟨h1, h2⟩ := runImages_writeFail_at baseName ct msg post pre 0
  refine ⟨(runImages_spec baseName _ 0).2.1, ?_, ?_⟩
  · simpa using h1
  · simpa using h2

lemma matchEmptyImage_head {l r : List Char} (h : matchEmptyImage l = some r) :
    ∃ t, l = '!' :: '[' :: t := by
  rw [matchEmptyImage.eq_def] at h
  split at h
  · rename_i t
    exact ⟨t, rfl⟩
  · cases h

lemma removeEmptyImages_no_bang (l : List Char) :
    (∀ c ∈ l, c ≠ '!') → removeEmptyImages l = l := by
  induction l using removeEmptyImages.induct with
  | case1 =>
    intro _
    rw [removeEmptyImages]
  | case2 c rest rest' hm ih =>
    intro h
    obtain ⟨t, ht⟩ := matchEmptyImage_head hm
    have hc : c = '!' := by
      have := congrArg List.head? ht
      simpa using this
    exact absurd hc (h c (List.mem_cons_self c rest))
  | case3 c rest hm ih =>
    intro h
    rw [removeEmptyImages]
    split
    · rename_i rest' hsome
      rw [hm] at hsome
      cases hsome
    · congr 1
      exact ih (fun x hx => h x (List.mem_cons_of_mem c hx))

lemma fixEscapedDots_no_backslash (l : List Char) :
    (∀ c ∈ l, c ≠ '\\') → fixEscapedDots l = l := by
  induction l using fixEscapedDots.induct with
  | case1 d rest hdig =>
    intro h
    exact absurd rfl (h '\\' (List.mem_cons_of_mem _ (List.mem_cons_self _ _)))
  | case2 d rest hdig ih =>
    intro h
    exact absurd rfl (h '\\' (List.mem_cons_of_mem _ (List.mem_cons_self _ _)))
  | case3 c rest hne ih =>
    intro h
    rw [fixEscapedDots]
    · congr 1
      exact ih (fun x hx => h x (List.mem_cons_of_mem c hx))
    · exact hne
  | case4 =>
    intro _
    rw [fixEscapedDots]

lemma collapseNewlines_no_triple (l : List Char) :
    hasTripleNewline l = false → collapseNewlines l = l := by
  induction l using collapseNewlines.induct with
  | case1 rest ih =>
    intro h
    rw [hasTripleNewline] at h
    cases h
  | case2 c rest hne ih =>
    intro h
    rw [collapseNewlines]
    · rw [ih]
      rw [hasTripleNewline] at h
      · exact h
      · exact hne
    · exact hne
  | case3 =>
    intro _
    rw [collapseNewlines]

/-- C9 as amended: the post-processed result always ends with at least one
trailing newline, and for title `"Report"` with body `"hello"` the output
is exactly `"# Report\n\nhello\n"`. -/
theorem cleanup_trailing_newline :
    (∀ md title : String, (cleanupMarkdown md title).data.getLast? = some '\n') ∧
    cleanupMarkdown "hello" "Report" = "# Report\n\nhello\n" := by
  constructor
  · intro md title
    rw [cleanupMarkdown]
    by_cases h : endsWithNewline (preFinal md title) = true
    · rw [if_pos h]
      exact of_decide_eq_true h
    · rw [if_neg h]
      rw [String.data_append]
      rw [List.getLast?_append_of_ne_nil _ (by decide)]
      decide
  · have e0 : ("# " ++ "Report" ++ "\n\n" ++ "hello" : String) = "# Report\n\nhello" := by
      decide
    have e1 : removeEmptyImages ("# Report\n\nhello").data = ("# Report\n\nhello").data :=
      removeEmptyImages_no_bang _ (by decide)
    have e2 : fixEscapedDots ("# Report\n\nhello").data = ("# Report\n\nhello").data :=
      fixEscapedDots_no_backslash _ (by decide)
    have e3 : collapseNewlines ("# Report\n\nhello").data = ("# Report\n\nhello").data :=
      collapseNewlines_no_triple _ (by decide)
    rw [cleanupMarkdown, preFinal, e0, e1, e2, e3]
    decide

/-- C9 as stated fails on the code: when the emitter output itself ends in
a blank line, the post-processed result ends with two newlines, not exactly
one. -/
theorem cleanup_trailing_newline_counterexample :
    cleanupMarkdown "hello\n\n" "Report" = "# Report\n\nhello\n\n" ∧
    ¬ endsWithExactlyOneNewline (cleanupMarkdown "hello\n\n" "Report") := by
  have e0 : ("# " ++ "Report" ++ "\n\n" ++ "hello\n\n" : String) = "# Report\n\nhello\n\n" := by
    decide
  have e1 : removeEmptyImages ("# Report\n\nhello\n\n").data = ("# Report\n\nhello\n\n").data :=
    removeEmptyImages_no_bang _ (by decide)
  have e2 : fixEscapedDots ("# Report\n\nhello\n\n").data = ("# Report\n\nhello\n\n").data :=
    fixEscapedDots_no_backslash _ (by decide)
  have e3 : collapseNewlines ("# Report\n\nhello\n\n").data = ("# Report\n\nhello\n\n").data :=
    collapseNewlines_no_triple _ (by decide)
  have emain : cleanupMarkdown "hello\n\n" "Report" = "# Report\n\nhello\n\n" := by
    rw [cleanupMarkdown, preFinal, e0, e1, e2, e3]
    decide
  refine ⟨emain, ?_⟩
  rw [emain, endsWithExactlyOneNewline]
  decide

lemma emitList_mem_infix (c : Node) : ∀ cs : List Node, c ∈ cs →
    ∃ x y, emitList (preprocessList false cs) =
      x ++ emit (preprocessNode false c) ++ y := by
  intro cs
  induction cs with
  | nil =>
    intro h
    cases h
  | cons d ds ih =>
    intro h
    rcases List.mem_cons.mp h with rfl | h'
    · exact ⟨"", emitList (preprocessList false ds), by simp [preprocessList, emitList]⟩
    · obtain ⟨x, y, hxy⟩ := ih h'
      refine ⟨emit (preprocessNode false d) ++ x, y, ?_⟩
      rw [preprocessList, emitList, hxy]
      simp [String.append_assoc]

lemma emit_preprocess_infix (t : Node) (htag : isTag "table" t = true)
    (hcomplex : isComplexTable t = true) :
    ∀ d : Node, SafePath t d →
    ∃ a b, emit (preprocessNode false d) =
      a ++ ("\n\n" ++ serialize t ++ "\n\n") ++ b := by
  intro d hpath
  induction hpath with
  | refl =>
    cases t with
    | text s => exact absurd htag (by simp [isTag])
    | elem tag attrs children =>
      have htag' : tag = "table" := by simpa [isTag] using htag
      subst htag'
      refine ⟨"", "", ?_⟩
      rw [preprocessNode, if_pos (by simp [hcomplex])]
      rw [wrapperFor, emit, if_pos (by simp)]
      simp [List.find?]
  | step tag attrs children htable hwrap hc hp ih =>
    obtain ⟨a, b, hab⟩ := ih
    obtain ⟨x, y, hxy⟩ := emitList_mem_infix _ children hc
    have hpre : preprocessNode false (.elem tag attrs children) =
        .elem tag attrs (preprocessList false children) := by
      rw [preprocessNode, if_neg (by simp [htable])]
      simp [htable]
    rw [hpre]
    have hemit : emit (.elem tag attrs (preprocessList false children)) =
        emitList (preprocessList false children) := by
      rw [emit, if_neg (by simp [hwrap]), if_neg (by simp [htable])]
    rw [hemit, hxy, hab]
    exact ⟨x ++ a, b ++ y, by simp [String.append_assoc]⟩

/-- C4: for any table that occurs with no table or wrapper ancestor
(top-level) and is classified COMPLEX, the emitted Markdown contains the
table's serialized original markup verbatim, surrounded by a blank line on
each side. -/
theorem complex_table_emitted_verbatim (doc t : Node)
    (hpath : SafePath t doc) (htag : isTag "table" t = true)
    (hcomplex : isComplexTable t = true) :
    ∃ a b, emit (preprocessComplexTables doc) =
      a ++ ("\n\n" ++ serialize t ++ "\n\n") ++ b :=
  emit_preprocess_infix t htag hcomplex doc hpath

/-- Concrete instance of `complex_table_emitted_verbatim`. -/
theorem complex_table_witness :
    ∃ a b, emit (preprocessComplexTables imgDoc) =
      a ++ ("\n\n" ++ serialize imgTable ++ "\n\n") ++ b :=
  complex_table_emitted_verbatim imgDoc imgTable
    (SafePath.step "body" [] [imgTable] (by decide) (by decide)
      (List.mem_singleton.mpr rfl) (SafePath.refl imgTable))
    (by decide) (by decide)

mutual

theorem preprocessNode_inside (n : Node) : preprocessNode true n = n := by
  cases n with
  | text s => rfl
  | elem tag attrs children =>
    rw [preprocessNode, if_neg (by simp)]
    rw [Bool.true_or, preprocessList_inside children]

theorem preprocessList_inside (cs : List Node) : preprocessList true cs = cs := by
  cases cs with
  | nil => rfl
  | cons c cs =>
    rw [preprocessList, preprocessNode_inside c, preprocessList_inside cs]

end

/-- C6: the isolation pass changes nothing once inside a table — a nested
table is never classified on its own and never replaced — and a top-level
table is handled atomically: kept untouched (children included) when
SIMPLE, replaced by the wrapper around its full original markup when
COMPLEX. -/
theorem nested_tables_skipped :
    (∀ n : Node, preprocessNode true n = n) ∧
    (∀ attrs children, isComplexTable (.elem "table" attrs children) = false →
      preprocessNode false (.elem "table" attrs children) = .elem "table" attrs children) ∧
    (∀ attrs children, isComplexTable (.elem "table" attrs children) = true →
      preprocessNode false (.elem "table" attrs children) =
        wrapperFor (.elem "table" attrs children)) := by
  refine ⟨preprocessNode_inside, ?_, ?_⟩
  · intro attrs children hsimple
    rw [preprocessNode, if_neg (by simp [hsimple])]
    have : ((false || decide ("table" = "table"))) = true := by simp
    rw [this, preprocessList_inside children]
  · intro attrs children hcomplex
    rw [preprocessNode, if_pos (by simp [hcomplex])]

/-- Concrete instance of `nested_tables_skipped`. -/
theorem nested_tables_skipped_witness :
    preprocessNode true nestedTableDoc = nestedTableDoc ∧
    preprocessNode false nestedTableDoc = wrapperFor nestedTableDoc := by
  refine ⟨nested_tables_skipped.1 nestedTableDoc, ?_⟩
  exact nested_tables_skipped.2.2 []
    [.elem "tr" [] [.elem "td" [] [.elem "table" [] []]]] (by decide)

end WordConv
